import Mathlib

/-! temp-mail-org client: a shallow embedding of `index.js`.

The module is one flat file: an MD5 helper, a GET primitive (`getJSON`), a random
address generator and six public operations layered on the GET primitive.

Modelling decisions.

* JavaScript strings are Lean strings (well-formed Unicode text); indexing is by
  character, which coincides with JavaScript's code-unit indexing on ASCII text.
* `Math.random()` is an explicit argument: a draw is a rational number, and a
  function that consumes several draws receives the sequence `draws : ℕ → ℚ` of
  the values the successive calls return. Products are exact.
* A promise is represented by the state it eventually reaches once the network
  reply has been delivered in full.
* The network is an explicit environment `net : Request → Reply`.
* Node's `crypto`, `url` and `https` modules are outside the repository. MD5 is
  transcribed from RFC 1321; `url.resolve` is modelled on the fragment of inputs
  described at `urlResolve`, and the model answers `none` outside it.
* The language-level bound on array lengths (`new Array(len)` needs
  `len < 2 ^ 32`) is modelled; the memory and string-size limits of a particular
  engine are not.
-/

namespace TempMail

/-! ## Errors and JavaScript values -/

/-- A JavaScript error object: constructor name and message. -/
structure JSError where
  name : String
  message : String
deriving DecidableEq, Repr

/-- The values that flow through the random generator: `undefined`, a string, or
an array of strings. -/
inductive JSVal where
  | undefined
  | str (s : String)
  | arr (items : List String)
deriving DecidableEq, Repr

/-- The property `length`; reading it from `undefined` throws a `TypeError`. -/
def JSVal.length : JSVal → Option Nat
  | .undefined => none
  | .str s => some s.data.length
  | .arr items => some items.length

/-- Indexing `array[i]` with an integer `i`: the one-character string or the
element at `i`, and `undefined` when `i` is negative or past the end. -/
def JSVal.item : JSVal → ℤ → JSVal
  | .str s, .ofNat k =>
    match s.data[k]? with
    | some c => .str (String.singleton c)
    | none => .undefined
  | .arr items, .ofNat k =>
    match items[k]? with
    | some x => .str x
    | none => .undefined
  | _, _ => .undefined

/-- String conversion as performed by `+` with a string operand. -/
def JSVal.toText : JSVal → String
  | .undefined => "undefined"
  | .str s => s
  | .arr items => ",".intercalate items

/-- String conversion of one element inside `Array.prototype.join`, which
renders `undefined` as the empty string. -/
def JSVal.joinText : JSVal → String
  | .undefined => ""
  | v => v.toText

/-! ## `md5` (source lines 7-14) and the MD5 algorithm of RFC 1321 -/

/-- UTF-8 encoding of one character, the default encoding of `hash.update`. -/
def utf8EncodeChar (c : Char) : List Nat :=
  let v := c.toNat
  if v < 0x80 then [v]
  else if v < 0x800 then [0xC0 + v / 64, 0x80 + v % 64]
  else if v < 0x10000 then [0xE0 + v / 4096, 0x80 + v / 64 % 64, 0x80 + v % 64]
  else [0xF0 + v / 262144, 0x80 + v / 4096 % 64, 0x80 + v / 64 % 64, 0x80 + v % 64]

def utf8Bytes (s : String) : List Nat := s.data.flatMap utf8EncodeChar

/-- The sine-derived constants `T[1..64]` of RFC 1321. -/
def md5K : List Nat := [
  0xd76aa478, 0xe8c7b756, 0x242070db, 0xc1bdceee,
  0xf57c0faf, 0x4787c62a, 0xa8304613, 0xfd469501,
  0x698098d8, 0x8b44f7af, 0xffff5bb1, 0x895cd7be,
  0x6b901122, 0xfd987193, 0xa679438e, 0x49b40821,
  0xf61e2562, 0xc040b340, 0x265e5a51, 0xe9b6c7aa,
  0xd62f105d, 0x02441453, 0xd8a1e681, 0xe7d3fbc8,
  0x21e1cde6, 0xc33707d6, 0xf4d50d87, 0x455a14ed,
  0xa9e3e905, 0xfcefa3f8, 0x676f02d9, 0x8d2a4c8a,
  0xfffa3942, 0x8771f681, 0x6d9d6122, 0xfde5380c,
  0xa4beea44, 0x4bdecfa9, 0xf6bb4b60, 0xbebfbc70,
  0x289b7ec6, 0xeaa127fa, 0xd4ef3085, 0x04881d05,
  0xd9d4d039, 0xe6db99e5, 0x1fa27cf8, 0xc4ac5665,
  0xf4292244, 0x432aff97, 0xab9423a7, 0xfc93a039,
  0x655b59c3, 0x8f0ccc92, 0xffeff47d, 0x85845dd1,
  0x6fa87e4f, 0xfe2ce6e0, 0xa3014314, 0x4e0811a1,
  0xf7537e82, 0xbd3af235, 0x2ad7d2bb, 0xeb86d391]

/-- The per-step left-rotation amounts of RFC 1321. -/
def md5S : List Nat := [
  7, 12, 17, 22, 7, 12, 17, 22, 7, 12, 17, 22, 7, 12, 17, 22,
  5, 9, 14, 20, 5, 9, 14, 20, 5, 9, 14, 20, 5, 9, 14, 20,
  4, 11, 16, 23, 4, 11, 16, 23, 4, 11, 16, 23, 4, 11, 16, 23,
  6, 10, 15, 21, 6, 10, 15, 21, 6, 10, 15, 21, 6, 10, 15, 21]

/-- Words are 32 bits wide; every addition is reduced modulo `w32`. -/
def w32 : Nat := 2 ^ 32

def not32 (x : Nat) : Nat := w32 - 1 - x % w32

def rotl32 (x c : Nat) : Nat := (x * 2 ^ c % w32) ||| (x % w32 / 2 ^ (32 - c))

structure MD5State where
  a : Nat
  b : Nat
  c : Nat
  d : Nat
deriving DecidableEq, Repr

def md5Init : MD5State := ⟨0x67452301, 0xefcdab89, 0x98badcfe, 0x10325476⟩

/-- Step `i` (0-based) of the 64 steps applied to one block `m` of 16 words. -/
def md5Round (m : List Nat) (st : MD5State) (i : Nat) : MD5State :=
  let f :=
    if i < 16 then (st.b &&& st.c) ||| (not32 st.b &&& st.d)
    else if i < 32 then (st.d &&& st.b) ||| (not32 st.d &&& st.c)
    else if i < 48 then st.b ^^^ st.c ^^^ st.d
    else st.c ^^^ (st.b ||| not32 st.d)
  let g :=
    if i < 16 then i
    else if i < 32 then (5 * i + 1) % 16
    else if i < 48 then (3 * i + 5) % 16
    else 7 * i % 16
  let sum := (st.a + f + md5K.getD i 0 + m.getD g 0) % w32
  ⟨st.d, (st.b + rotl32 sum (md5S.getD i 0)) % w32, st.b, st.c⟩

/-- Little-endian 32-bit word made of the first four bytes. -/
def leWord (bs : List Nat) : Nat :=
  bs.getD 0 0 + 256 * bs.getD 1 0 + 65536 * bs.getD 2 0 + 16777216 * bs.getD 3 0

def wordsOf : Nat → List Nat → List Nat
  | 0, _ => []
  | n + 1, bs => leWord bs :: wordsOf n (bs.drop 4)

def md5Block (st : MD5State) (block : List Nat) : MD5State :=
  let m := wordsOf 16 block
  let r := (List.range 64).foldl (md5Round m) st
  ⟨(st.a + r.a) % w32, (st.b + r.b) % w32, (st.c + r.c) % w32, (st.d + r.d) % w32⟩

/-- The `n` low-order bytes of `x`, least significant first. -/
def leBytes (n : Nat) (x : Nat) : List Nat := (List.range n).map fun i => x / 256 ^ i % 256

/-- Padding: a `1` bit, zeros up to 56 modulo 64 bytes, then the bit length as a
64-bit little-endian integer. -/
def md5Pad (msg : List Nat) : List Nat :=
  msg ++ [0x80] ++ List.replicate ((119 - msg.length % 64) % 64) 0 ++
    leBytes 8 (8 * msg.length % 2 ^ 64)

def md5Blocks : Nat → MD5State → List Nat → MD5State
  | 0, st, _ => st
  | n + 1, st, bs => md5Blocks n (md5Block st (bs.take 64)) (bs.drop 64)

/-- The 16-byte MD5 digest of a byte string. -/
def md5Digest (msg : List Nat) : List Nat :=
  let padded := md5Pad msg
  let st := md5Blocks (padded.length / 64) md5Init padded
  leBytes 4 st.a ++ leBytes 4 st.b ++ leBytes 4 st.c ++ leBytes 4 st.d

def hexDigit (d : Nat) : Char := "0123456789abcdef".data.getD d '0'

/-- The encoding `digest('hex')`: two lowercase hexadecimal digits per byte. -/
def hexEncode (bytes : List Nat) : String :=
  String.mk (bytes.flatMap fun b => [hexDigit (b / 16 % 16), hexDigit (b % 16)])

/-- Source: `crypto.createHash('md5').update(source).digest('hex')`. -/
def md5 (source : String) : String := hexEncode (md5Digest (utf8Bytes source))

/-! ## `url.resolve(pathname, 'format/json')` (source line 22)

Node's legacy resolver parses both arguments as URLs and resolves the second
against the first. The model covers the inputs on which neither argument has a
scheme or an authority, which is the case for every call made by this module
(every `pathname` starts with `/request/`):

* the source consists of printable ASCII characters (codes 0x21 to 0x7E), starts
  with `/`, and its second character is neither `/` nor a backslash;
* the relative reference is non-empty, consists of ASCII letters, digits and `/`,
  and does not start with `/`.

On such a source the parser turns backslashes that precede the first `?` or `#`
into `/`, percent-escapes the characters of `autoEscapeCodes`, and takes as the
pathname everything before the first `?` or `#`; the query and the fragment of
the source are dropped by the resolution against a relative path. -/

/-- Character codes the parser percent-escapes: tab, LF, CR, space, the double
and single quotes, `<`, `>`, backslash, `^`, backtick, and the braces and bar. -/
def autoEscapeCodes : List Nat :=
  [0x09, 0x0A, 0x0D, 0x20, 0x22, 0x27, 0x3C, 0x3E, 0x5C, 0x5E, 0x60, 0x7B, 0x7C, 0x7D]

def upperHexDigit (d : Nat) : Char := "0123456789ABCDEF".data.getD d '0'

def autoEscapeStr (rest : List Char) : List Char :=
  rest.flatMap fun c =>
    if c.toNat ∈ autoEscapeCodes then
      ['%', upperHexDigit (c.toNat / 16 % 16), upperHexDigit (c.toNat % 16)]
    else [c]

/-- Backslashes are converted to `/` until the first `?` or `#` is seen. -/
def convertBackslashes : List Char → List Char
  | [] => []
  | c :: cs =>
    if c = '?' ∨ c = '#' then c :: cs
    else (if c.toNat = 0x5C then '/' else c) :: convertBackslashes cs

/-- The pathname of a parsed source: everything before the first `?` or `#`. -/
def pathnameOf (rest : List Char) : List Char :=
  rest.takeWhile fun c => c != '?' && c != '#'

/-- The method `split('/')`: the empty string yields one empty segment. -/
def splitSlash : List Char → List (List Char)
  | [] => [[]]
  | c :: cs =>
    if c = '/' then [] :: splitSlash cs
    else
      match splitSlash cs with
      | [] => [[c]]
      | seg :: segs => (c :: seg) :: segs

/-- The method `join('/')`. -/
def joinSlash (segs : List (List Char)) : List Char := List.intercalate ['/'] segs

/-- The right-to-left scan that removes `.` segments and lets every `..` remove
the nearest kept segment to its left; the second component is the counter `up`
of `..` segments still unmatched. -/
def stripDots : List (List Char) → List (List Char) × Nat
  | [] => ([], 0)
  | seg :: segs =>
    let (kept, up) := stripDots segs
    if seg = ['.'] then (kept, up)
    else if seg = ['.', '.'] then (kept, up + 1)
    else if up > 0 then (kept, up - 1)
    else (seg :: kept, up)

/-- Resolution of a relative pathname against an absolute source pathname: drop
the last source segment, append the relative segments, remove dot segments, and
restore the leading and the trailing slash. -/
def resolvePathname (srcPathname relPathname : List Char) : List Char :=
  let srcPath := (splitSlash srcPathname).dropLast ++ splitSlash relPathname
  let last := srcPath.getLast?.getD []
  let hasTrailingSlash : Bool :=
    (decide (srcPath.length > 1) && (last == ['.'] || last == ['.', '.'])) || last == []
  let kept := (stripDots srcPath).1
  let kept := if kept.head? = some [] then kept else [] :: kept
  let kept :=
    if hasTrailingSlash && (joinSlash kept).getLast? != some '/' then kept ++ [[]] else kept
  joinSlash kept

def plainSource (source : List Char) : Bool :=
  source.all (fun c => decide (0x21 ≤ c.toNat) && decide (c.toNat ≤ 0x7E)) &&
    source.head? == some '/' &&
    source[1]? != some '/' && (source[1]?.map Char.toNat) != some 0x5C

def plainRelative (relative : List Char) : Bool :=
  relative.all (fun c => c.isAlphanum || c == '/') &&
    !relative.isEmpty && relative.head? != some '/'

/-- The function `url.resolve` on the modelled inputs; `none` outside them. -/
def urlResolve (source relative : String) : Option String :=
  if plainSource source.data && plainRelative relative.data then
    some (String.mk (resolvePathname
      (pathnameOf (autoEscapeStr (convertBackslashes source.data))) relative.data))
  else none

/-- The unreserved URL characters: ASCII letters, digits, `-`, `.`, `_` and `~`. -/
def unreserved (c : Char) : Bool :=
  (decide (0x30 ≤ c.toNat) && decide (c.toNat ≤ 0x39)) ||
  (decide (0x41 ≤ c.toNat) && decide (c.toNat ≤ 0x5A)) ||
  (decide (0x61 ≤ c.toNat) && decide (c.toNat ≤ 0x7A)) ||
  c.toNat == 0x2D || c.toNat == 0x2E || c.toNat == 0x5F || c.toNat == 0x7E

/-- A character the parser leaves alone: printable ASCII other than `?`, `#`,
backslash and the escaped characters. -/
def inert (c : Char) : Bool :=
  decide (0x21 ≤ c.toNat) && decide (c.toNat ≤ 0x7E) && c.toNat != 0x3F && c.toNat != 0x23 &&
    c.toNat != 0x5C && !(autoEscapeCodes.contains c.toNat)

/-! ## The network and `getJSON` (source lines 16-41) -/

def API_URL : String := "api4.temp-mail.org"

/-- The options object passed to `https.get`. -/
structure Request where
  host : String
  path : String
deriving DecidableEq, Repr

/-- Events emitted by the response stream after `setEncoding('utf8')`. -/
inductive ResEvent where
  | data (chunk : String)
  | end_
  | error (e : JSError)
deriving DecidableEq, Repr

/-- What the network does with a request: the request object emits `error`, or
the response callback runs with a status code and the stream then emits events. -/
inductive Reply where
  | error (e : JSError)
  | response (statusCode : Nat) (events : List ResEvent)
deriving Repr

/-- The state a promise has reached. -/
inductive Promise (α : Type) where
  | pending
  | fulfilled (value : α)
  | rejected (reason : JSError)
deriving DecidableEq, Repr

/-- Calling `resolve` or `reject`: only the first call has an effect. -/
def Promise.settle {α : Type} (p q : Promise α) : Promise α :=
  match p with
  | .pending => q
  | _ => p

/-- The method `then` with one callback; a callback that throws rejects. -/
def Promise.then_ {α β : Type} (p : Promise α) (f : α → Except JSError β) : Promise β :=
  match p with
  | .pending => .pending
  | .rejected e => .rejected e
  | .fulfilled v =>
    match f v with
    | .ok b => .fulfilled b
    | .error e => .rejected e

/-- The variable `data` of the response callback together with the promise. -/
structure Body where
  data : String
  promise : Promise String
deriving DecidableEq, Repr

/-- The three listeners attached on lines 33-37. -/
def onEvent (st : Body) : ResEvent → Body
  | .data chunk => { st with data := st.data ++ chunk }
  | .end_ => { st with promise := st.promise.settle (.fulfilled st.data) }
  | .error e => { st with promise := st.promise.settle (.rejected e) }

/-- The response callback of lines 25-38. -/
def onResponse (statusCode : Nat) (events : List ResEvent) : Promise String :=
  if statusCode < 200 ∨ statusCode > 299 then
    .rejected ⟨"Error", "Request failed: " ++ toString statusCode⟩
  else (events.foldl onEvent ⟨"", .pending⟩).promise

/-- The number a list of decimal digits denotes. -/
def digitsValue (cs : List Char) : Nat :=
  cs.foldl (fun acc c => acc * 10 + (c.toNat - 48)) 0

/-- The status code read back from the message `Request failed: <status>`. -/
def statusOf (e : JSError) : Nat := digitsValue (e.message.data.drop 16)

/-- What a call of this module does: it throws synchronously, or it issues one
GET request and returns a promise. `unmodelled` marks a `url.resolve` input
outside the modelled fragment. -/
inductive Outcome (α : Type) where
  | unmodelled
  | threw (e : JSError)
  | requested (req : Request) (promise : Promise α)
deriving DecidableEq, Repr

/-- The GET requests issued during the call. -/
def Outcome.requests {α : Type} : Outcome α → List Request
  | .requested req _ => [req]
  | _ => []

def getJSON (net : Request → Reply) (pathname : String) : Outcome String :=
  match urlResolve pathname "format/json" with
  | none => .unmodelled
  | some path =>
    let req : Request := ⟨API_URL, path⟩
    .requested req
      (match net req with
      | .error e => .rejected e
      | .response statusCode events => onResponse statusCode events)

/-! ## Random addresses (source lines 43-62) -/

/-- The function `Math.round`: the nearest integer, ties towards plus infinity. -/
def mathRound {α : Type} [LinearOrderedField α] [FloorRing α] (x : α) : ℤ := ⌊x + 1 / 2⌋

/-- The index `Math.round(Math.random() * (array.length - 1))` for the draw `r`. -/
def randomIndex {α : Type} [LinearOrderedField α] [FloorRing α] (length : ℕ) (r : α) : ℤ :=
  mathRound (r * ((length : α) - 1))

def getRandomArrayItem (array : JSVal) (r : ℚ) : Except JSError JSVal :=
  match array.length with
  | none => .error ⟨"TypeError", "Cannot read property \x27length\x27 of undefined"⟩
  | some n => .ok (array.item (randomIndex n r))

def chars : String := "ABCDEFGHIJKLMNOPQRSTUVWXYZabcdefghijklmnopqrstuvwxyz0123456789"

/-- Draw `i` is used for character `i` of the name, draw `len` for the domain.
`new Array(len)` throws a `RangeError` unless `len` is below `2 ^ 32`. -/
def getRandomEmail (domains : JSVal) (len : Nat) (draws : ℕ → ℚ) : Except JSError String := do
  if len ≥ 2 ^ 32 then throw ⟨"RangeError", "Invalid array length"⟩
  let items ← (List.range len).mapM fun i => getRandomArrayItem (.str chars) (draws i)
  let name := String.join (items.map JSVal.joinText)
  let domain ← getRandomArrayItem domains (draws len)
  pure (name ++ domain.toText)

/-! ## Public operations (source lines 64-131) -/

def getDomainsList (net : Request → Reply) : Outcome String :=
  getJSON net "/request/domains/"

/-- The parameter `len` is optional and defaults to 7. -/
def generateEmail (net : Request → Reply) (len : Option Nat) (draws : ℕ → ℚ) :
    Outcome String :=
  match getDomainsList net with
  | .unmodelled => .unmodelled
  | .threw e => .threw e
  | .requested req p =>
    .requested req (p.then_ fun domains => getRandomEmail (.str domains) (len.getD 7) draws)

/-- The test `!x` on an argument that is missing (`none`) or a string. -/
def falsy : Option String → Bool
  | none => true
  | some s => s == ""

def getAllMessages (net : Request → Reply) (email : Option String) : Outcome String :=
  match email with
  | some e =>
    if falsy email then .threw ⟨"Error", "Please specify email"⟩
    else getJSON net ("/request/mail/id/" ++ md5 e ++ "/")
  | none => .threw ⟨"Error", "Please specify email"⟩

def getMessage (net : Request → Reply) (mailId : Option String) : Outcome String :=
  match mailId with
  | some id =>
    if falsy mailId then .threw ⟨"Error", "Please specify mailId"⟩
    else getJSON net ("/request/one_mail/id/" ++ id ++ "/")
  | none => .threw ⟨"Error", "Please specify mailId"⟩

def getMessageSource (net : Request → Reply) (mailId : Option String) : Outcome String :=
  match mailId with
  | some id =>
    if falsy mailId then .threw ⟨"Error", "Please specify mailId"⟩
    else getJSON net ("/request/source/id/" ++ id ++ "/")
  | none => .threw ⟨"Error", "Please specify mailId"⟩

def deleteMessage (net : Request → Reply) (mailId : Option String) : Outcome String :=
  match mailId with
  | some id =>
    if falsy mailId then .threw ⟨"Error", "Please specify mailId"⟩
    else getJSON net ("/request/delete/id/" ++ id ++ "/")
  | none => .threw ⟨"Error", "Please specify mailId"⟩

/-! ## Properties of `md5` -/

theorem leBytes_length (n x : Nat) : (leBytes n x).length = n := by
  simp [leBytes]

theorem md5Digest_length (msg : List Nat) : (md5Digest msg).length = 16 := by
  simp [md5Digest, leBytes_length]

theorem hexDigit_mem (d : Nat) (h : d < 16) : hexDigit d ∈ "0123456789abcdef".data := by
  interval_cases d <;> decide

theorem hexEncode_length (bytes : List Nat) : (hexEncode bytes).length = 2 * bytes.length := by
  induction bytes with
  | nil => rfl
  | cons b bs ih =>
    simp only [hexEncode, String.length, List.flatMap_cons, List.length_append,
      List.length_cons, List.length_nil] at ih ⊢
    omega

theorem hexEncode_mem (bytes : List Nat) (c : Char) (h : c ∈ (hexEncode bytes).data) :
    c ∈ "0123456789abcdef".data := by
  simp only [hexEncode, List.mem_flatMap, List.mem_cons, List.mem_singleton] at h
  obtain ⟨b, _, hc⟩ := h
  rcases hc with rfl | rfl | hc
  · exact hexDigit_mem _ (Nat.mod_lt _ (by norm_num))
  · exact hexDigit_mem _ (Nat.mod_lt _ (by norm_num))
  · simp at hc

set_option maxRecDepth 1000000 in
/-- RFC 1321 test vector: the digest of `abc`. -/
theorem md5_abc : md5 "abc" = "900150983cd24fb0d6963f7d28e17f72" := by decide

theorem foldl_data (chunks : List String) (d : String) (p : Promise String) :
    (chunks.map ResEvent.data).foldl onEvent ⟨d, p⟩ = ⟨chunks.foldl (· ++ ·) d, p⟩ := by
  induction chunks generalizing d with
  | nil => rfl
  | cons c cs ih => simp only [List.map_cons, List.foldl_cons, onEvent, ih]

theorem onResponse_body (s : Nat) (chunks : List String) (h : 200 ≤ s ∧ s ≤ 299) :
    onResponse s (chunks.map ResEvent.data ++ [ResEvent.end_]) =
      .fulfilled (String.join chunks) := by
  have hs : ¬ (s < 200 ∨ s > 299) := by omega
  simp only [onResponse, hs, if_false, List.foldl_append, foldl_data, List.foldl_cons,
    List.foldl_nil, onEvent, Promise.settle, String.join]

theorem onResponse_status (s : Nat) (events : List ResEvent) (h : ¬ (200 ≤ s ∧ s ≤ 299)) :
    onResponse s events = .rejected ⟨"Error", "Request failed: " ++ toString s⟩ := by
  have hs : s < 200 ∨ s > 299 := by omega
  simp only [onResponse, hs, if_true]

theorem digitChar_value (k : Nat) (h : k < 10) : (Nat.digitChar k).toNat - 48 = k := by
  interval_cases k <;> rfl

theorem foldl_toDigitsCore (fuel n : Nat) (ds : List Char) (h : n < fuel) :
    (Nat.toDigitsCore 10 fuel n ds).foldl (fun acc c => acc * 10 + (c.toNat - 48)) 0 =
      ds.foldl (fun acc c => acc * 10 + (c.toNat - 48)) n := by
  induction fuel generalizing n ds with
  | zero => omega
  | succ fuel ih =>
    rw [Nat.toDigitsCore]
    have hd := digitChar_value (n % 10) (Nat.mod_lt _ (by norm_num))
    split
    · have hn : n % 10 = n := Nat.mod_eq_of_lt (by omega)
      rw [List.foldl_cons, hd, hn]
      simp
    · rw [ih _ _ (by omega), List.foldl_cons, hd]
      congr 1
      omega

theorem digitsValue_toString (n : Nat) : digitsValue (toString n).data = n := by
  show digitsValue (Nat.toDigits 10 n) = n
  rw [digitsValue, Nat.toDigits, foldl_toDigitsCore _ _ _ (Nat.lt_succ_self n)]
  rfl

/-- The status code is recovered from the rejection error. -/
theorem statusOf_request_failed (s : Nat) :
    statusOf ⟨"Error", "Request failed: " ++ toString s⟩ = s := by
  have h : ("Request failed: " ++ toString s).data.drop 16 = (toString s).data := by
    rw [String.data_append]
    rfl
  rw [statusOf, h, digitsValue_toString]

theorem getJSON_eq (net : Request → Reply) (pathname path : String)
    (hpath : urlResolve pathname "format/json" = some path) :
    getJSON net pathname = .requested ⟨API_URL, path⟩
      (match net ⟨API_URL, path⟩ with
      | .error e => .rejected e
      | .response statusCode events => onResponse statusCode events) := by
  simp only [getJSON, hpath]

/-- C3: when the transport delivers status `s`, then the body chunks, then `end`,
`getJSON` resolves exactly when `200 ≤ s ≤ 299`, and then with the chunks
concatenated in arrival order; for every other `s` the promise is rejected with
the error `Request failed: s`, from which `s` can be read back. -/
theorem getJSON_resolves_iff_2xx (net : Request → Reply) (pathname path : String) (s : Nat)
    (chunks : List String)
    (hpath : urlResolve pathname "format/json" = some path)
    (hnet : net ⟨API_URL, path⟩ = .response s (chunks.map ResEvent.data ++ [ResEvent.end_])) :
    (200 ≤ s ∧ s ≤ 299 →
      getJSON net pathname = .requested ⟨API_URL, path⟩ (.fulfilled (String.join chunks))) ∧
    (¬ (200 ≤ s ∧ s ≤ 299) →
      getJSON net pathname = .requested ⟨API_URL, path⟩
        (.rejected ⟨"Error", "Request failed: " ++ toString s⟩) ∧
      statusOf ⟨"Error", "Request failed: " ++ toString s⟩ = s) ∧
    ((∃ req body, getJSON net pathname = .requested req (.fulfilled body)) ↔
      200 ≤ s ∧ s ≤ 299) := by
  have hget := getJSON_eq net pathname path hpath
  rw [hnet] at hget
  dsimp only at hget
  refine ⟨fun h => ?_, fun h => ⟨?_, statusOf_request_failed s⟩, ⟨fun h => ?_, fun h => ?_⟩⟩
  · rw [hget, onResponse_body s chunks h]
  · rw [hget, onResponse_status s _ h]
  · by_contra hs
    obtain ⟨req, body, hb⟩ := h
    rw [hget, onResponse_status s _ hs] at hb
    simp at hb
  · exact ⟨_, _, by rw [hget, onResponse_body s chunks h]⟩

theorem getJSON_resolves_iff_2xx_witness :
    (200 ≤ 404 ∧ 404 ≤ 299 →
      getJSON (fun _ => .response 404 (["Not ", "Found"].map ResEvent.data ++ [ResEvent.end_]))
        "/request/domains/" =
        .requested ⟨API_URL, "/request/domains/format/json"⟩
          (.fulfilled (String.join ["Not ", "Found"]))) ∧
    (¬ (200 ≤ 404 ∧ 404 ≤ 299) →
      getJSON (fun _ => .response 404 (["Not ", "Found"].map ResEvent.data ++ [ResEvent.end_]))
        "/request/domains/" =
        .requested ⟨API_URL, "/request/domains/format/json"⟩
          (.rejected ⟨"Error", "Request failed: " ++ toString 404⟩) ∧
      statusOf ⟨"Error", "Request failed: " ++ toString 404⟩ = 404) ∧
    ((∃ req body,
      getJSON (fun _ => .response 404 (["Not ", "Found"].map ResEvent.data ++ [ResEvent.end_]))
        "/request/domains/" = .requested req (.fulfilled body)) ↔
      200 ≤ 404 ∧ 404 ≤ 299) :=
  getJSON_resolves_iff_2xx _ "/request/domains/" "/request/domains/format/json" 404
    ["Not ", "Found"] (by decide) rfl

/-- Two evaluations of `getJSON`: status 404 rejects with `Request failed: 404`,
status 200 resolves with the concatenated chunks. -/
theorem getJSON_examples :
    getJSON (fun _ => .response 404 [ResEvent.data "Not ", ResEvent.data "Found", ResEvent.end_])
        "/request/domains/" =
      .requested ⟨API_URL, "/request/domains/format/json"⟩
        (.rejected ⟨"Error", "Request failed: 404"⟩) ∧
    getJSON (fun _ => .response 200 [ResEvent.data "[\"@a", ResEvent.data ".b\"]", ResEvent.end_])
        "/request/domains/" =
      .requested ⟨API_URL, "/request/domains/format/json"⟩ (.fulfilled "[\"@a.b\"]") := by
  decide

/-- C2: each of `getAllMessages`, `getMessage`, `getMessageSource` and
`deleteMessage`, called with a missing argument or with the empty string, throws
synchronously and issues no request. -/
theorem falsy_argument_throws (net : Request → Reply) :
    (getAllMessages net none = .threw ⟨"Error", "Please specify email"⟩ ∧
      getAllMessages net (some "") = .threw ⟨"Error", "Please specify email"⟩ ∧
      getMessage net none = .threw ⟨"Error", "Please specify mailId"⟩ ∧
      getMessage net (some "") = .threw ⟨"Error", "Please specify mailId"⟩ ∧
      getMessageSource net none = .threw ⟨"Error", "Please specify mailId"⟩ ∧
      getMessageSource net (some "") = .threw ⟨"Error", "Please specify mailId"⟩ ∧
      deleteMessage net none = .threw ⟨"Error", "Please specify mailId"⟩ ∧
      deleteMessage net (some "") = .threw ⟨"Error", "Please specify mailId"⟩) ∧
    ((getAllMessages net none).requests = [] ∧
      (getAllMessages net (some "")).requests = [] ∧
      (getMessage net none).requests = [] ∧
      (getMessage net (some "")).requests = [] ∧
      (getMessageSource net none).requests = [] ∧
      (getMessageSource net (some "")).requests = [] ∧
      (deleteMessage net none).requests = [] ∧
      (deleteMessage net (some "")).requests = []) := by
  refine ⟨⟨rfl, rfl, rfl, rfl, rfl, rfl, rfl, rfl⟩, ⟨rfl, rfl, rfl, rfl, rfl, rfl, rfl, rfl⟩⟩

/-! ## Properties of `url.resolve` and of the request paths -/

theorem unreserved_inert (c : Char) (h : unreserved c = true) : inert c = true := by
  simp only [unreserved, Bool.or_eq_true, Bool.and_eq_true, decide_eq_true_eq, beq_iff_eq] at h
  simp only [inert, autoEscapeCodes, Bool.and_eq_true, decide_eq_true_eq, bne_iff_ne, ne_eq,
    Bool.not_eq_true', List.contains_eq_any_beq, List.any_cons, List.any_nil, Bool.or_false,
    Bool.or_eq_false_iff, beq_eq_false_iff_ne]
  omega

theorem unreserved_ne_slash (c : Char) (h : unreserved c = true) : c ≠ '/' := by
  rintro rfl
  revert h
  decide

theorem inert_facts (c : Char) (h : inert c = true) :
    (0x21 ≤ c.toNat ∧ c.toNat ≤ 0x7E) ∧ c ≠ '?' ∧ c ≠ '#' ∧ c.toNat ≠ 0x5C ∧
      c.toNat ∉ autoEscapeCodes := by
  simp only [inert, Bool.and_eq_true, decide_eq_true_eq, bne_iff_ne, ne_eq,
    Bool.not_eq_true', List.contains_eq_any_beq, List.any_eq_false, beq_iff_eq] at h
  obtain ⟨⟨⟨⟨hr, hq⟩, hh⟩, hb⟩, he⟩ := h
  refine ⟨hr, ?_, ?_, hb, fun hm => he _ hm rfl⟩
  · rintro rfl
    exact hq rfl
  · rintro rfl
    exact hh rfl

theorem convertBackslashes_inert (l : List Char) (h : ∀ c ∈ l, inert c = true) :
    convertBackslashes l = l := by
  induction l with
  | nil => rfl
  | cons c cs ih =>
    have hc := inert_facts c (h c (List.mem_cons_self _ _))
    have hcs := ih fun d hd => h d (List.mem_cons_of_mem _ hd)
    simp [convertBackslashes, hcs, hc.2.1, hc.2.2.1, hc.2.2.2.1]

theorem autoEscapeStr_inert (l : List Char) (h : ∀ c ∈ l, inert c = true) :
    autoEscapeStr l = l := by
  induction l with
  | nil => rfl
  | cons c cs ih =>
    have hc := inert_facts c (h c (List.mem_cons_self _ _))
    have hcs := ih fun d hd => h d (List.mem_cons_of_mem _ hd)
    simp only [autoEscapeStr] at hcs
    simp only [autoEscapeStr, List.flatMap_cons, hcs, hc.2.2.2.2, if_false,
      List.singleton_append]

theorem pathnameOf_inert (l : List Char) (h : ∀ c ∈ l, inert c = true) :
    pathnameOf l = l := by
  rw [pathnameOf, List.takeWhile_eq_self_iff]
  intro c hc
  have := inert_facts c (h c hc)
  simp [this.2.1, this.2.2.1]

theorem splitSlash_segment (seg : List Char) (h : ∀ c ∈ seg, c ≠ '/') :
    splitSlash seg = [seg] := by
  induction seg with
  | nil => rfl
  | cons c cs ih =>
    have hcs := ih fun d hd => h d (List.mem_cons_of_mem _ hd)
    simp [splitSlash, hcs, h c (List.mem_cons_self _ _)]

theorem splitSlash_append (seg rest : List Char) (h : ∀ c ∈ seg, c ≠ '/') :
    splitSlash (seg ++ '/' :: rest) = seg :: splitSlash rest := by
  induction seg with
  | nil => simp [splitSlash]
  | cons c cs ih =>
    have hcs := ih fun d hd => h d (List.mem_cons_of_mem _ hd)
    simp [splitSlash, hcs, h c (List.mem_cons_self _ _)]

theorem splitSlash_ne_nil (l : List Char) : splitSlash l ≠ [] := by
  induction l with
  | nil => simp [splitSlash]
  | cons c cs ih =>
    rw [splitSlash]
    split
    · simp
    · split <;> simp

theorem splitSlash_concat (l : List Char) : splitSlash (l ++ ['/']) = splitSlash l ++ [[]] := by
  induction l with
  | nil => simp [splitSlash]
  | cons c cs ih =>
    rw [List.cons_append, splitSlash, splitSlash, ih]
    split
    · rfl
    · cases hs : splitSlash cs with
      | nil => exact absurd hs (splitSlash_ne_nil cs)
      | cons seg segs => rfl

theorem joinSlash_cons (seg : List Char) (segs : List (List Char)) (h : segs ≠ []) :
    joinSlash (seg :: segs) = seg ++ '/' :: joinSlash segs := by
  cases segs with
  | nil => exact absurd rfl h
  | cons t ts => simp [joinSlash, List.intercalate, List.intersperse]

/-- Joining the segments of `l`, followed by further segments, gives back `l`
followed by a slash and the joined further segments. -/
theorem joinSlash_splitSlash (l : List Char) (rest : List (List Char)) (h : rest ≠ []) :
    joinSlash (splitSlash l ++ rest) = l ++ '/' :: joinSlash rest := by
  induction l with
  | nil => simp [splitSlash, joinSlash_cons _ _ h]
  | cons c cs ih =>
    rw [splitSlash]
    split
    · rw [List.cons_append, joinSlash_cons _ _ (by simp [h]), ih]
      simp_all
    · cases hs : splitSlash cs with
      | nil => exact absurd hs (splitSlash_ne_nil cs)
      | cons seg segs =>
        rw [hs] at ih
        simp only [List.cons_append] at ih ⊢
        rw [joinSlash_cons _ _ (by simp [h])] at ih ⊢
        rw [List.cons_append, ih]

theorem stripDots_plain (segs : List (List Char))
    (h : ∀ seg ∈ segs, seg ≠ ['.'] ∧ seg ≠ ['.', '.']) : stripDots segs = (segs, 0) := by
  induction segs with
  | nil => rfl
  | cons seg segs ih =>
    have hs := h seg (List.mem_cons_self _ _)
    rw [stripDots, ih fun t ht => h t (List.mem_cons_of_mem _ ht)]
    simp [hs.1, hs.2]

/-- The character list `seg₁/seg₂/…/segₖ/rest`. -/
theorem splitSlash_foldr (pre : List (List Char)) (rest : List Char)
    (hpre : ∀ seg ∈ pre, ∀ c ∈ seg, c ≠ '/') :
    splitSlash (pre.foldr (fun seg acc => seg ++ '/' :: acc) rest) = pre ++ splitSlash rest := by
  induction pre with
  | nil => rfl
  | cons seg segs ih =>
    rw [List.foldr_cons, splitSlash_append _ _ (hpre seg (List.mem_cons_self _ _)),
      ih fun t ht => hpre t (List.mem_cons_of_mem _ ht), List.cons_append]

theorem joinSlash_foldr (pre more : List (List Char)) (h : more ≠ []) :
    joinSlash (pre ++ more) = pre.foldr (fun seg acc => seg ++ '/' :: acc) (joinSlash more) := by
  induction pre with
  | nil => rfl
  | cons seg segs ih =>
    rw [List.cons_append, joinSlash_cons _ _ (by simp [h]), ih, List.foldr_cons]

theorem getLast?_two {α : Type} (l : List α) (a b : α) : (l ++ [a, b]).getLast? = some b := by
  have h : l ++ [a, b] = (l ++ [a]) ++ [b] := by simp
  rw [h, List.getLast?_concat]

/-- Resolution of a two-segment relative path `F/J` against an absolute source
`pre₁/…/preₖ/id/` with no dot segment anywhere appends the relative path. -/
theorem resolvePathname_append (pre : List (List Char)) (id F J : List Char)
    (hpre : ∀ seg ∈ [] :: pre, ∀ c ∈ seg, c ≠ '/')
    (hdots : ∀ seg ∈ [] :: pre, seg ≠ ['.'] ∧ seg ≠ ['.', '.'])
    (hid : ∀ seg ∈ splitSlash id, seg ≠ ['.'] ∧ seg ≠ ['.', '.'])
    (hF : ∀ c ∈ F, c ≠ '/') (hF1 : F ≠ ['.'] ∧ F ≠ ['.', '.'])
    (hJ : ∀ c ∈ J, c ≠ '/') (hJ1 : J ≠ ['.'] ∧ J ≠ ['.', '.']) (hJ0 : J ≠ []) :
    resolvePathname (([] :: pre).foldr (fun seg acc => seg ++ '/' :: acc) (id ++ ['/']))
        (F ++ '/' :: J) =
      ([] :: pre).foldr (fun seg acc => seg ++ '/' :: acc) (id ++ '/' :: (F ++ '/' :: J)) := by
  have hrel : splitSlash (F ++ '/' :: J) = [F, J] := by
    rw [splitSlash_append _ _ hF, splitSlash_segment _ hJ]
  have hsrc : (splitSlash (([] :: pre).foldr (fun seg acc => seg ++ '/' :: acc)
      (id ++ ['/']))).dropLast = ([] :: pre) ++ splitSlash id := by
    rw [splitSlash_foldr _ _ hpre, splitSlash_concat, ← List.append_assoc,
      List.dropLast_concat]
  have hsegs : ∀ seg ∈ ([] :: pre) ++ splitSlash id ++ [F, J],
      seg ≠ ['.'] ∧ seg ≠ ['.', '.'] := by
    intro seg hseg
    simp only [List.mem_append, List.mem_cons, List.mem_singleton, List.mem_nil_iff,
      or_false] at hseg
    rcases hseg with (hseg | hseg) | rfl | rfl
    · exact hdots seg (by simpa using hseg)
    · exact hid seg hseg
    · exact hF1
    · exact hJ1
  have hjoin : joinSlash (([] :: pre) ++ splitSlash id ++ [F, J]) =
      ([] :: pre).foldr (fun seg acc => seg ++ '/' :: acc) (id ++ '/' :: (F ++ '/' :: J)) := by
    rw [List.append_assoc, joinSlash_foldr _ _ (by simp),
      joinSlash_splitSlash _ _ (by simp), joinSlash_cons _ _ (by simp)]
    have hone : joinSlash [J] = J := by simp [joinSlash, List.intercalate, List.intersperse]
    rw [hone]
  have hhead : (([] :: pre) ++ splitSlash id ++ [F, J]).head? = some [] := rfl
  rw [resolvePathname, hsrc, hrel]
  simp only [getLast?_two, stripDots_plain _ hsegs, hhead, if_true, Option.getD_some]
  have hJa : (J == ['.']) = false := beq_eq_false_iff_ne.mpr hJ1.1
  have hJb : (J == ['.', '.']) = false := beq_eq_false_iff_ne.mpr hJ1.2
  have hJc : (J == []) = false := beq_eq_false_iff_ne.mpr hJ0
  simp only [hJa, hJb, hJc, Bool.or_self, Bool.and_false, Bool.false_and, Bool.false_eq_true,
    if_false, hjoin]

theorem source_inert (op id : List Char)
    (hop : ∀ c ∈ op, unreserved c = true) (hid : ∀ c ∈ id, inert c = true) :
    ∀ c ∈ "/request".data ++ '/' :: op ++ '/' :: 'i' :: 'd' :: '/' :: id ++ ['/'],
      inert c = true := by
  intro c hc
  simp only [List.mem_append, List.mem_cons, List.mem_singleton, List.mem_nil_iff,
    or_false] at hc
  have hlit : ∀ d ∈ "/request".data, inert d = true := by decide
  rcases hc with ((hc | hc | hc) | hc | hc | hc | hc | hc) | hc
  · exact hlit c (by simpa using hc)
  · subst hc; decide
  · exact unreserved_inert c (hop c hc)
  · subst hc; decide
  · subst hc; decide
  · subst hc; decide
  · subst hc; decide
  · exact hid c hc
  · subst hc; decide

theorem source_plain (op id : List Char)
    (hop : ∀ c ∈ op, unreserved c = true) (hid : ∀ c ∈ id, inert c = true) :
    plainSource ("/request".data ++ '/' :: op ++ '/' :: 'i' :: 'd' :: '/' :: id ++ ['/']) =
      true := by
  have hall := source_inert op id hop hid
  have hprint : ∀ c ∈ "/request".data ++ '/' :: op ++ '/' :: 'i' :: 'd' :: '/' :: id ++ ['/'],
      (decide (0x21 ≤ c.toNat) && decide (c.toNat ≤ 0x7E)) = true := by
    intro c hc
    have := (inert_facts c (hall c hc)).1
    simp [this.1, this.2]
  have hall2 : ("/request".data ++ '/' :: op ++ '/' :: 'i' :: 'd' :: '/' :: id ++ ['/']).all
      (fun c => decide (0x21 ≤ c.toNat) && decide (c.toNat ≤ 0x7E)) = true :=
    List.all_eq_true.mpr hprint
  rw [plainSource, hall2]
  simp

/-- On a source `/request/<op>/id/<id>/` whose characters the parser leaves
alone and none of whose segments is a dot segment, resolving `format/json`
appends it to the source. -/
theorem urlResolve_operation (op id : String)
    (hop : ∀ c ∈ op.data, unreserved c = true) (hop1 : op ≠ ".") (hop2 : op ≠ "..")
    (hid : ∀ c ∈ id.data, inert c = true)
    (hseg : ∀ seg ∈ splitSlash id.data, seg ≠ ['.'] ∧ seg ≠ ['.', '.']) :
    urlResolve ("/request/" ++ op ++ "/id/" ++ id ++ "/") "format/json" =
      some ("/request/" ++ op ++ "/id/" ++ id ++ "/format/json") := by
  have hrel : plainRelative "format/json".data = true := by decide
  have hne : ∀ (s : String) (l : List Char), s ≠ String.mk l → s.data ≠ l :=
    fun s l h hd => h (by cases s; simp_all)
  have hsrc : ("/request/" ++ op ++ "/id/" ++ id ++ "/").data =
      "/request".data ++ '/' :: op.data ++ '/' :: 'i' :: 'd' :: '/' :: id.data ++ ['/'] := by
    simp [String.data_append]
  have hall := source_inert op.data id.data hop hid
  have hpre : ∀ seg ∈ [] :: ["request".data, op.data, "id".data], ∀ c ∈ seg, c ≠ '/' := by
    intro seg hs
    simp only [List.mem_cons, List.mem_singleton, List.mem_nil_iff, or_false] at hs
    rcases hs with rfl | rfl | rfl | rfl
    · simp
    · decide
    · exact fun c hc => unreserved_ne_slash c (hop c hc)
    · decide
  have hdots : ∀ seg ∈ [] :: ["request".data, op.data, "id".data],
      seg ≠ ['.'] ∧ seg ≠ ['.', '.'] := by
    intro seg hs
    simp only [List.mem_cons, List.mem_singleton, List.mem_nil_iff, or_false] at hs
    rcases hs with rfl | rfl | rfl | rfl
    · decide
    · decide
    · exact ⟨hne op _ hop1, hne op _ hop2⟩
    · decide
  have hres := resolvePathname_append ["request".data, op.data, "id".data] id.data
    "format".data "json".data hpre hdots hseg (by decide) (by decide) (by decide) (by decide)
    (by decide)
  have hl : ([] :: ["request".data, op.data, "id".data]).foldr
      (fun seg acc => seg ++ '/' :: acc) (id.data ++ ['/']) =
      "/request".data ++ '/' :: op.data ++ '/' :: 'i' :: 'd' :: '/' :: id.data ++ ['/'] := by
    simp
  have hrelData : "format".data ++ '/' :: "json".data = "format/json".data := by decide
  rw [hl, hrelData] at hres
  rw [urlResolve, hsrc, source_plain op.data id.data hop hid, hrel]
  simp only [Bool.and_self, if_true, Option.some.injEq]
  rw [convertBackslashes_inert _ hall, autoEscapeStr_inert _ hall, pathnameOf_inert _ hall, hres]
  apply String.ext
  simp [String.data_append]

theorem getJSON_operation (net : Request → Reply) (op id : String)
    (hop : ∀ c ∈ op.data, unreserved c = true) (hop1 : op ≠ ".") (hop2 : op ≠ "..")
    (hid : ∀ c ∈ id.data, inert c = true)
    (hseg : ∀ seg ∈ splitSlash id.data, seg ≠ ['.'] ∧ seg ≠ ['.', '.']) :
    ∃ promise, getJSON net ("/request/" ++ op ++ "/id/" ++ id ++ "/") =
      .requested ⟨API_URL, "/request/" ++ op ++ "/id/" ++ id ++ "/format/json"⟩ promise :=
  ⟨_, getJSON_eq net _ _ (urlResolve_operation op id hop hop1 hop2 hid hseg)⟩

theorem falsy_some (s : String) (h : s ≠ "") : falsy (some s) = false := by
  simp [falsy, h]

/-- C6: for a non-empty address `e`, `getAllMessages` issues one GET to host
`api4.temp-mail.org` with path `/request/mail/id/<h>/format/json`, where `h` is
the 32-character lowercase hexadecimal MD5 digest of `e`. -/
theorem getAllMessages_request (net : Request → Reply) (e : String) (he : e ≠ "") :
    (∃ promise, getAllMessages net (some e) =
      .requested ⟨"api4.temp-mail.org", "/request/mail/id/" ++ md5 e ++ "/format/json"⟩
        promise) ∧
    md5 e = hexEncode (md5Digest (utf8Bytes e)) ∧
    (md5 e).length = 32 ∧
    (∀ c ∈ (md5 e).data, c ∈ "0123456789abcdef".data) := by
  have hlen : (md5 e).data.length = 32 := by
    show (md5 e).length = 32
    rw [md5, hexEncode_length, md5Digest_length]
  have hhex : ∀ c ∈ (md5 e).data, c ∈ "0123456789abcdef".data := hexEncode_mem _
  have hunres : ∀ c ∈ "0123456789abcdef".data, unreserved c = true := by decide
  have hseg : ∀ seg ∈ splitSlash (md5 e).data, seg ≠ ['.'] ∧ seg ≠ ['.', '.'] := by
    rw [splitSlash_segment _ fun c hc => unreserved_ne_slash c (hunres c (hhex c hc))]
    intro seg hs
    rw [List.mem_singleton] at hs
    subst hs
    constructor <;> intro h <;> rw [h] at hlen <;> revert hlen <;> decide
  obtain ⟨p, hp⟩ := getJSON_operation net "mail" (md5 e) (by decide) (by decide) (by decide)
    (fun c hc => unreserved_inert c (hunres c (hhex c hc))) hseg
  have hlit : "/request/" ++ "mail" ++ "/id/" = "/request/mail/id/" := by decide
  rw [hlit] at hp
  refine ⟨⟨p, ?_⟩, rfl, hlen, hhex⟩
  rw [getAllMessages]
  simp only [falsy_some e he, Bool.false_eq_true, if_false]
  exact hp

theorem getAllMessages_request_witness :
    (∃ promise, getAllMessages (fun _ => Reply.response 200 [ResEvent.end_])
      (some "user@example.com") =
      .requested
        ⟨"api4.temp-mail.org", "/request/mail/id/" ++ md5 "user@example.com" ++ "/format/json"⟩
        promise) ∧
    md5 "user@example.com" = hexEncode (md5Digest (utf8Bytes "user@example.com")) ∧
    (md5 "user@example.com").length = 32 ∧
    (∀ c ∈ (md5 "user@example.com").data, c ∈ "0123456789abcdef".data) :=
  getAllMessages_request _ "user@example.com" (by decide)

/-- C7, as amended: for a non-empty identifier made of printable ASCII
characters other than `?`, `#`, the backslash and the characters the URL parser
percent-escapes, none of whose `/`-separated segments is `.` or `..`, the three
operations request the given path with `format/json` appended. -/
theorem message_request_paths (net : Request → Reply) (id : String) (hne : id ≠ "")
    (hid : ∀ c ∈ id.data, inert c = true)
    (hseg : ∀ seg ∈ splitSlash id.data, seg ≠ ['.'] ∧ seg ≠ ['.', '.']) :
    (∃ promise, getMessage net (some id) =
      .requested ⟨API_URL, "/request/one_mail/id/" ++ id ++ "/format/json"⟩ promise) ∧
    (∃ promise, getMessageSource net (some id) =
      .requested ⟨API_URL, "/request/source/id/" ++ id ++ "/format/json"⟩ promise) ∧
    (∃ promise, deleteMessage net (some id) =
      .requested ⟨API_URL, "/request/delete/id/" ++ id ++ "/format/json"⟩ promise) := by
  obtain ⟨p1, hp1⟩ := getJSON_operation net "one_mail" id (by decide) (by decide) (by decide)
    hid hseg
  obtain ⟨p2, hp2⟩ := getJSON_operation net "source" id (by decide) (by decide) (by decide)
    hid hseg
  obtain ⟨p3, hp3⟩ := getJSON_operation net "delete" id (by decide) (by decide) (by decide)
    hid hseg
  have hl1 : "/request/" ++ "one_mail" ++ "/id/" = "/request/one_mail/id/" := by decide
  have hl2 : "/request/" ++ "source" ++ "/id/" = "/request/source/id/" := by decide
  have hl3 : "/request/" ++ "delete" ++ "/id/" = "/request/delete/id/" := by decide
  rw [hl1] at hp1
  rw [hl2] at hp2
  rw [hl3] at hp3
  refine ⟨⟨p1, ?_⟩, ⟨p2, ?_⟩, ⟨p3, ?_⟩⟩
  · rw [getMessage]
    simp only [falsy_some id hne, Bool.false_eq_true, if_false]
    exact hp1
  · rw [getMessageSource]
    simp only [falsy_some id hne, Bool.false_eq_true, if_false]
    exact hp2
  · rw [deleteMessage]
    simp only [falsy_some id hne, Bool.false_eq_true, if_false]
    exact hp3

theorem message_request_paths_witness :
    (∃ promise, getMessage (fun _ => Reply.response 200 [ResEvent.end_])
      (some "0cc175b9/c0f1.b6a8") =
      .requested
        ⟨API_URL, "/request/one_mail/id/" ++ "0cc175b9/c0f1.b6a8" ++ "/format/json"⟩
        promise) ∧
    (∃ promise, getMessageSource (fun _ => Reply.response 200 [ResEvent.end_])
      (some "0cc175b9/c0f1.b6a8") =
      .requested
        ⟨API_URL, "/request/source/id/" ++ "0cc175b9/c0f1.b6a8" ++ "/format/json"⟩
        promise) ∧
    (∃ promise, deleteMessage (fun _ => Reply.response 200 [ResEvent.end_])
      (some "0cc175b9/c0f1.b6a8") =
      .requested
        ⟨API_URL, "/request/delete/id/" ++ "0cc175b9/c0f1.b6a8" ++ "/format/json"⟩
        promise) :=
  message_request_paths _ "0cc175b9/c0f1.b6a8" (by decide) (by decide) (by decide)

/-- C7 fails as stated: an identifier containing `?` or `#` loses everything from
that character on together with the segment before it, and the identifier `..`
removes the segment `id`; in neither case is the requested path the given path
with the suffix appended. -/
theorem message_request_paths_counterexample :
    getMessage (fun _ => Reply.response 200 [ResEvent.end_]) (some "a?b") =
      .requested ⟨API_URL, "/request/one_mail/id/format/json"⟩ (.fulfilled "") ∧
    (¬ ∃ promise, getMessage (fun _ => Reply.response 200 [ResEvent.end_]) (some "a?b") =
      .requested ⟨API_URL, "/request/one_mail/id/" ++ "a?b" ++ "/format/json"⟩ promise) ∧
    getMessageSource (fun _ => Reply.response 200 [ResEvent.end_]) (some "a#b") =
      .requested ⟨API_URL, "/request/source/id/format/json"⟩ (.fulfilled "") ∧
    deleteMessage (fun _ => Reply.response 200 [ResEvent.end_]) (some "..") =
      .requested ⟨API_URL, "/request/delete/format/json"⟩ (.fulfilled "") ∧
    (¬ ∃ promise, deleteMessage (fun _ => Reply.response 200 [ResEvent.end_]) (some "..") =
      .requested ⟨API_URL, "/request/delete/id/" ++ ".." ++ "/format/json"⟩ promise) := by
  have h1 : getMessage (fun _ => Reply.response 200 [ResEvent.end_]) (some "a?b") =
      .requested ⟨API_URL, "/request/one_mail/id/format/json"⟩ (.fulfilled "") := by decide
  have h2 : deleteMessage (fun _ => Reply.response 200 [ResEvent.end_]) (some "..") =
      .requested ⟨API_URL, "/request/delete/format/json"⟩ (.fulfilled "") := by decide
  refine ⟨h1, ?_, by decide, h2, ?_⟩
  · rintro ⟨p, hp⟩
    rw [h1] at hp
    injection hp with hreq _
    revert hreq
    decide
  · rintro ⟨p, hp⟩
    rw [h2] at hp
    injection hp with hreq _
    revert hreq
    decide

/-! ## Properties of the random generator -/

theorem mathRound_nonneg (x : ℚ) (h : 0 ≤ x) : 0 ≤ mathRound x := by
  unfold mathRound
  exact Int.floor_nonneg.mpr (by linarith)

theorem randomIndex_nonneg (n : ℕ) (r : ℚ) (hn : 0 < n) (h0 : 0 ≤ r) :
    0 ≤ randomIndex n r := by
  unfold randomIndex
  apply mathRound_nonneg
  have : (1 : ℚ) ≤ n := by exact_mod_cast hn
  exact mul_nonneg h0 (by linarith)

theorem randomIndex_lt (n : ℕ) (r : ℚ) (hn : 0 < n) (h1 : r < 1) :
    randomIndex n r < n := by
  unfold randomIndex mathRound
  rw [Int.floor_lt]
  have hn1 : (1 : ℚ) ≤ n := by exact_mod_cast hn
  have : r * ((n : ℚ) - 1) ≤ (n : ℚ) - 1 := by
    have := mul_le_mul_of_nonneg_right h1.le (by linarith : (0 : ℚ) ≤ (n : ℚ) - 1)
    linarith
  push_cast
  linarith

/-- A draw in `[0, 1)` selects a valid position of a non-empty array. -/
theorem randomIndex_position (n : ℕ) (r : ℚ) (hn : 0 < n) (h0 : 0 ≤ r) (h1 : r < 1) :
    ∃ k : ℕ, k < n ∧ randomIndex n r = Int.ofNat k := by
  obtain ⟨k, hk⟩ := Int.eq_ofNat_of_zero_le (randomIndex_nonneg n r hn h0)
  refine ⟨k, ?_, hk⟩
  have := randomIndex_lt n r hn h1
  rw [hk] at this
  exact_mod_cast this

theorem getRandomArrayItem_str (s : String) (r : ℚ) (hs : 0 < s.data.length)
    (h0 : 0 ≤ r) (h1 : r < 1) :
    ∃ c ∈ s.data, getRandomArrayItem (.str s) r = .ok (.str (String.singleton c)) := by
  obtain ⟨k, hk, hidx⟩ := randomIndex_position s.data.length r hs h0 h1
  refine ⟨s.data[k], List.getElem_mem _, ?_⟩
  simp only [getRandomArrayItem, JSVal.length, hidx, JSVal.item, List.getElem?_eq_getElem hk]

/-- Sampling the alphabet once per listed draw never throws and yields one
alphabet character per draw. -/
theorem sample_chars (draws : ℕ → ℚ) (hd : ∀ i, 0 ≤ draws i ∧ draws i < 1) (l : List ℕ) :
    ∃ cs : List Char, cs.length = l.length ∧ (∀ c ∈ cs, c ∈ chars.data) ∧
      l.mapM (fun i => getRandomArrayItem (.str chars) (draws i)) =
        .ok (cs.map fun c => JSVal.str (String.singleton c)) := by
  induction l with
  | nil => exact ⟨[], rfl, by simp, rfl⟩
  | cons i is ih =>
    obtain ⟨cs, hlen, hmem, hcs⟩ := ih
    obtain ⟨c, hc, hitem⟩ :=
      getRandomArrayItem_str chars (draws i) (by decide) (hd i).1 (hd i).2
    refine ⟨c :: cs, by simp [hlen], ?_, ?_⟩
    · intro x hx
      rcases List.mem_cons.mp hx with rfl | hx
      · exact hc
      · exact hmem x hx
    · rw [List.mapM_cons, hitem, hcs]
      rfl

theorem foldl_append_data (l : List String) (acc : String) :
    (l.foldl (· ++ ·) acc).data = acc.data ++ (l.map String.data).flatten := by
  induction l generalizing acc with
  | nil => simp
  | cons x xs ih => simp [ih, String.data_append]

theorem join_singletons (cs : List Char) :
    String.join ((cs.map fun c => JSVal.str (String.singleton c)).map JSVal.joinText) =
      String.mk cs := by
  apply String.ext
  rw [String.join, foldl_append_data]
  induction cs with
  | nil => rfl
  | cons c cs ih =>
    have hnil : "".data = [] := rfl
    rw [hnil, List.nil_append] at ih ⊢
    rw [List.map_cons, List.map_cons, List.map_cons, List.flatten_cons, ih]
    rfl

/-- The result of `getRandomEmail` whenever the array can be allocated and the
alphabet draws are in range: the sampled name followed by the text of the item
selected from `domains`. -/
theorem getRandomEmail_eq (domains : JSVal) (len : ℕ) (draws : ℕ → ℚ) (hlen : len < 2 ^ 32)
    (hd : ∀ i, 0 ≤ draws i ∧ draws i < 1) :
    ∃ cs : List Char, cs.length = len ∧ (∀ c ∈ cs, c ∈ chars.data) ∧
      getRandomEmail domains len draws =
        (getRandomArrayItem domains (draws len)).map fun domain =>
          String.mk cs ++ domain.toText := by
  obtain ⟨cs, hcl, hmem, hcs⟩ := sample_chars draws hd (List.range len)
  refine ⟨cs, by simpa using hcl, hmem, ?_⟩
  have hge : ¬ len ≥ 2 ^ 32 := by omega
  simp only [getRandomEmail, hge, if_false, hcs]
  cases getRandomArrayItem domains (draws len) with
  | error e => rfl
  | ok v =>
    show Except.ok (String.join _ ++ v.toText) = Except.ok (String.mk cs ++ v.toText)
    rw [join_singletons]

/-- C5, evaluated on the code: a 200 response whose body is the JSON text
`{"ok":true}` resolves with that text, and `getDomainsList` resolves with the
16-character text `[".example.com"]`, whose element 0 is the character `[`, not
the domain `.example.com`. -/
theorem getDomainsList_resolves_with_text :
    getJSON (fun _ => Reply.response 200 [ResEvent.data "\x7b\"ok\":true\x7d", ResEvent.end_])
        "/request/domains/" =
      .requested ⟨API_URL, "/request/domains/format/json"⟩
        (.fulfilled "\x7b\"ok\":true\x7d") ∧
    getDomainsList
        (fun _ => Reply.response 200 [ResEvent.data "[\".example.com\"]", ResEvent.end_]) =
      .requested ⟨API_URL, "/request/domains/format/json"⟩
        (.fulfilled "[\".example.com\"]") ∧
    (JSVal.str "[\".example.com\"]").length = some 16 ∧
    (JSVal.str "[\".example.com\"]").item 0 = .str "[" ∧
    (JSVal.arr [".example.com"]).item 0 = .str ".example.com" := by
  decide

/-- C4, evaluated on the code: when the service answers 200 with the body
`[".example.com"]` and the length is 5, `generateEmail` resolves with 5 alphabet
characters followed by one single character of the body text, 6 characters in
all, whatever the draws in `[0, 1)` are. -/
theorem generateEmail_samples_body_text (draws : ℕ → ℚ)
    (hd : ∀ i, 0 ≤ draws i ∧ draws i < 1) :
    ∃ (cs : List Char) (c : Char), cs.length = 5 ∧ (∀ x ∈ cs, x ∈ chars.data) ∧
      c ∈ "[\".example.com\"]".data ∧
      generateEmail
          (fun _ => Reply.response 200 [ResEvent.data "[\".example.com\"]", ResEvent.end_])
          (some 5) draws =
        .requested ⟨API_URL, "/request/domains/format/json"⟩
          (.fulfilled (String.mk cs ++ String.singleton c)) ∧
      (String.mk cs ++ String.singleton c).length = 6 ∧
      (String.mk cs ++ String.singleton c).length ≠ 17 := by
  obtain ⟨cs, hlen, hmem, heq⟩ :=
    getRandomEmail_eq (.str "[\".example.com\"]") 5 draws (by decide) hd
  obtain ⟨c, hc, hitem⟩ :=
    getRandomArrayItem_str "[\".example.com\"]" (draws 5) (by decide) (hd 5).1 (hd 5).2
  rw [hitem] at heq
  have hdom : getDomainsList
      (fun _ => Reply.response 200 [ResEvent.data "[\".example.com\"]", ResEvent.end_]) =
      .requested ⟨API_URL, "/request/domains/format/json"⟩
        (.fulfilled "[\".example.com\"]") := by decide
  have hlen6 : (String.mk cs ++ String.singleton c).length = 6 := by
    show (String.mk cs ++ String.singleton c).data.length = 6
    rw [String.data_append, List.length_append]
    show cs.length + 1 = 6
    rw [hlen]
  refine ⟨cs, c, hlen, hmem, hc, ?_, hlen6, by rw [hlen6]; decide⟩
  simp only [generateEmail, hdom, Promise.then_, Option.getD_some, heq]
  rfl

theorem generateEmail_samples_body_text_witness :
    ∃ (cs : List Char) (c : Char), cs.length = 5 ∧ (∀ x ∈ cs, x ∈ chars.data) ∧
      c ∈ "[\".example.com\"]".data ∧
      generateEmail
          (fun _ => Reply.response 200 [ResEvent.data "[\".example.com\"]", ResEvent.end_])
          (some 5) (fun _ => 1 / 2) =
        .requested ⟨API_URL, "/request/domains/format/json"⟩
          (.fulfilled (String.mk cs ++ String.singleton c)) ∧
      (String.mk cs ++ String.singleton c).length = 6 ∧
      (String.mk cs ++ String.singleton c).length ≠ 17 :=
  generateEmail_samples_body_text (fun _ => 1 / 2) (fun _ => by norm_num)

/-! ## The selection is not uniform -/

theorem randomIndex_three_first :
    {r : ℝ | 0 ≤ r ∧ r < 1 ∧ randomIndex 3 r = 0} = Set.Ico 0 (1 / 4) := by
  ext r
  simp only [Set.mem_setOf_eq, Set.mem_Ico, randomIndex, mathRound, Int.floor_eq_iff]
  push_cast
  constructor
  · rintro ⟨h0, _, _, h3⟩
    exact ⟨h0, by linarith⟩
  · rintro ⟨h0, h1⟩
    exact ⟨h0, by linarith, by linarith, by linarith⟩

theorem randomIndex_three_middle :
    {r : ℝ | 0 ≤ r ∧ r < 1 ∧ randomIndex 3 r = 1} = Set.Ico (1 / 4) (3 / 4) := by
  ext r
  simp only [Set.mem_setOf_eq, Set.mem_Ico, randomIndex, mathRound, Int.floor_eq_iff]
  push_cast
  constructor
  · rintro ⟨_, _, h2, h3⟩
    exact ⟨by linarith, by linarith⟩
  · rintro ⟨h0, h1⟩
    exact ⟨by linarith, by linarith, by linarith, by linarith⟩

theorem randomIndex_alphabet_first :
    {r : ℝ | 0 ≤ r ∧ r < 1 ∧ randomIndex 62 r = 0} = Set.Ico 0 (1 / 122) := by
  ext r
  simp only [Set.mem_setOf_eq, Set.mem_Ico, randomIndex, mathRound, Int.floor_eq_iff]
  push_cast
  constructor
  · rintro ⟨h0, _, _, h3⟩
    exact ⟨h0, by linarith⟩
  · rintro ⟨h0, h1⟩
    exact ⟨h0, by linarith, by linarith, by linarith⟩

/-- C9, evaluated on the code: for an array of 3 items the draws that select
index 0 form the interval `[0, 1/4)` of measure 1/4 and those that select index 1
the interval `[1/4, 3/4)` of measure 1/2, not 1/3 each; for the 62-character
alphabet the first character is selected with probability 1/122, not 1/62. -/
theorem randomIndex_not_uniform :
    MeasureTheory.volume {r : ℝ | 0 ≤ r ∧ r < 1 ∧ randomIndex 3 r = 0} =
      ENNReal.ofReal (1 / 4) ∧
    MeasureTheory.volume {r : ℝ | 0 ≤ r ∧ r < 1 ∧ randomIndex 3 r = 1} =
      ENNReal.ofReal (1 / 2) ∧
    MeasureTheory.volume {r : ℝ | 0 ≤ r ∧ r < 1 ∧ randomIndex 3 r = 0} ≠
      ENNReal.ofReal (1 / 3) ∧
    MeasureTheory.volume {r : ℝ | 0 ≤ r ∧ r < 1 ∧ randomIndex 62 r = 0} =
      ENNReal.ofReal (1 / 122) ∧
    MeasureTheory.volume {r : ℝ | 0 ≤ r ∧ r < 1 ∧ randomIndex 62 r = 0} ≠
      ENNReal.ofReal (1 / 62) := by
  rw [randomIndex_three_first, randomIndex_three_middle, randomIndex_alphabet_first,
    Real.volume_Ico, Real.volume_Ico, Real.volume_Ico]
  have e1 : (1 / 4 : ℝ) - 0 = 1 / 4 := by norm_num
  have e2 : (3 / 4 : ℝ) - 1 / 4 = 1 / 2 := by norm_num
  have e3 : (1 / 122 : ℝ) - 0 = 1 / 122 := by norm_num
  rw [e1, e2, e3]
  refine ⟨rfl, rfl, ?_, rfl, ?_⟩
  · intro h
    have := (ENNReal.ofReal_eq_ofReal_iff (by norm_num) (by norm_num)).mp h
    norm_num at this
  · intro h
    have := (ENNReal.ofReal_eq_ofReal_iff (by norm_num) (by norm_num)).mp h
    norm_num at this

end TempMail
